import Mathlib

/-!
# strswitch: a string switch builder

Shallow embedding of `include/strswitch/strswitch.hpp` (namespace `ss`).

* `std::string_view` is a finite sequence of `char`; it is embedded as `List Char`, one
  Lean `Char` per C++ `char`. Only equality of elements is ever used.
* `std::optional<T>` is `Option T`.
* `string_switch&` returned by every registration is the updated builder state.
* `R(std::move(t))`, the construction of the final type from the intermediate type, is a
  function `conv : T → R` (the identity when `R = T`).
-/

namespace ss

/-- The type `std::string_view`: a sequence of characters. -/
abbrev string_view := List Char

/-- The member `std::string_view::starts_with(sv)`, which the standard defines as
`substr(0, sv.size()) == sv`. -/
def starts_with (self sv : string_view) : Bool :=
  self.take sv.length == sv

/-- The member `std::string_view::ends_with(sv)`, which the standard defines as
`size() >= sv.size() && compare(size() - sv.size(), npos, sv) == 0`. -/
def ends_with (self sv : string_view) : Bool :=
  decide (sv.length ≤ self.length) && self.drop (self.length - sv.length) == sv

/-- The class `string_switch<T, R>`: the string being matched and the result slot. -/
structure string_switch (T : Type) where
  /-- string we are matching -/
  m_str : string_view
  /-- result of this switch statement -/
  m_result : Option T
deriving DecidableEq, Repr

namespace string_switch

variable {T R : Type}

/-- The constructor `string_switch(std::string_view s)`: the slot starts as `std::nullopt`. -/
def ctor (s : string_view) : string_switch T :=
  { m_str := s, m_result := none }

/-- The private member `elif`. -/
def elif (self : string_switch T) (s : string_view) (value : T) : string_switch T :=
  if self.m_result.isNone && self.m_str == s then
    { self with m_result := some value }
  else self

/-- The member `endsWith`. -/
def endsWith (self : string_switch T) (s : string_view) (value : T) : string_switch T :=
  if self.m_result.isNone && ends_with self.m_str s then
    { self with m_result := some value }
  else self

/-- The member `startsWith`. -/
def startsWith (self : string_switch T) (s : string_view) (value : T) : string_switch T :=
  if self.m_result.isNone && starts_with self.m_str s then
    { self with m_result := some value }
  else self

/-- The member `case_`. -/
def case_ (self : string_switch T) (s0 : string_view) (value : T) : string_switch T :=
  self.elif s0 value

/-- The overload `cases(s0, value)`. -/
def cases1 (self : string_switch T) (s0 : string_view) (value : T) : string_switch T :=
  self.case_ s0 value

/-- The overload `cases(s0, s1, value)`. -/
def cases2 (self : string_switch T) (s0 s1 : string_view) (value : T) : string_switch T :=
  (self.elif s0 value).elif s1 value

/-- The overload `cases(s0, s1, s2, value)`. -/
def cases3 (self : string_switch T) (s0 s1 s2 : string_view) (value : T) : string_switch T :=
  (self.elif s0 value).cases2 s1 s2 value

/-- The overload `cases(s0, ..., s3, value)`. -/
def cases4 (self : string_switch T) (s0 s1 s2 s3 : string_view) (value : T) :
    string_switch T :=
  (self.elif s0 value).cases3 s1 s2 s3 value

/-- The overload `cases(s0, ..., s4, value)`. -/
def cases5 (self : string_switch T) (s0 s1 s2 s3 s4 : string_view) (value : T) :
    string_switch T :=
  (self.elif s0 value).cases4 s1 s2 s3 s4 value

/-- The overload `cases(s0, ..., s5, value)`. -/
def cases6 (self : string_switch T) (s0 s1 s2 s3 s4 s5 : string_view) (value : T) :
    string_switch T :=
  (self.elif s0 value).cases5 s1 s2 s3 s4 s5 value

/-- The overload `cases(s0, ..., s6, value)`. -/
def cases7 (self : string_switch T) (s0 s1 s2 s3 s4 s5 s6 : string_view) (value : T) :
    string_switch T :=
  (self.elif s0 value).cases6 s1 s2 s3 s4 s5 s6 value

/-- The overload `cases(s0, ..., s7, value)`. -/
def cases8 (self : string_switch T) (s0 s1 s2 s3 s4 s5 s6 s7 : string_view) (value : T) :
    string_switch T :=
  (self.elif s0 value).cases7 s1 s2 s3 s4 s5 s6 s7 value

/-- The overload `cases(s0, ..., s8, value)`. -/
def cases9 (self : string_switch T) (s0 s1 s2 s3 s4 s5 s6 s7 s8 : string_view) (value : T) :
    string_switch T :=
  (self.elif s0 value).cases8 s1 s2 s3 s4 s5 s6 s7 s8 value

/-- The overload `cases(s0, ..., s9, value)`. -/
def cases10 (self : string_switch T) (s0 s1 s2 s3 s4 s5 s6 s7 s8 s9 : string_view)
    (value : T) : string_switch T :=
  (self.elif s0 value).cases9 s1 s2 s3 s4 s5 s6 s7 s8 s9 value

/-- The nested aggregate `case_t`. -/
structure case_t (T : Type) where
  key : string_view
  value : T
deriving DecidableEq, Repr

/-- The member `operator|`. -/
def pipe (self : string_switch T) (p : case_t T) : string_switch T :=
  self.case_ p.key p.value

/-- The member `orDefault`; `conv` is the construction of `R` from a `T`. -/
def orDefault (conv : T → R) (self : string_switch T) (value : T) : R :=
  match self.m_result with
  | some r => conv r
  | none => conv value

/-- The conversion `operator R()`. A violated `assert` is the error carrying the assertion
message; no value is produced in that case. -/
def operator_R (conv : T → R) (self : string_switch T) : Except String R :=
  match self.m_result with
  | some r => .ok (conv r)
  | none => .error "Fell off the end of a string-switch"

end string_switch

/-! ## Chains of registrations -/

open string_switch in
/-- One registration call of a chain, with its arguments. -/
inductive registration (T : Type) where
  | case_ (s0 : string_view) (value : T)
  | cases1 (s0 : string_view) (value : T)
  | cases2 (s0 s1 : string_view) (value : T)
  | cases3 (s0 s1 s2 : string_view) (value : T)
  | cases4 (s0 s1 s2 s3 : string_view) (value : T)
  | cases5 (s0 s1 s2 s3 s4 : string_view) (value : T)
  | cases6 (s0 s1 s2 s3 s4 s5 : string_view) (value : T)
  | cases7 (s0 s1 s2 s3 s4 s5 s6 : string_view) (value : T)
  | cases8 (s0 s1 s2 s3 s4 s5 s6 s7 : string_view) (value : T)
  | cases9 (s0 s1 s2 s3 s4 s5 s6 s7 s8 : string_view) (value : T)
  | cases10 (s0 s1 s2 s3 s4 s5 s6 s7 s8 s9 : string_view) (value : T)
  | startsWith (s : string_view) (value : T)
  | endsWith (s : string_view) (value : T)
  | pipe (p : case_t T)

namespace registration

variable {T R : Type}

/-- The member call that the registration stands for, applied to a builder. -/
def call (self : string_switch T) : registration T → string_switch T
  | case_ s0 v => self.case_ s0 v
  | cases1 s0 v => self.cases1 s0 v
  | cases2 s0 s1 v => self.cases2 s0 s1 v
  | cases3 s0 s1 s2 v => self.cases3 s0 s1 s2 v
  | cases4 s0 s1 s2 s3 v => self.cases4 s0 s1 s2 s3 v
  | cases5 s0 s1 s2 s3 s4 v => self.cases5 s0 s1 s2 s3 s4 v
  | cases6 s0 s1 s2 s3 s4 s5 v => self.cases6 s0 s1 s2 s3 s4 s5 v
  | cases7 s0 s1 s2 s3 s4 s5 s6 v => self.cases7 s0 s1 s2 s3 s4 s5 s6 v
  | cases8 s0 s1 s2 s3 s4 s5 s6 s7 v => self.cases8 s0 s1 s2 s3 s4 s5 s6 s7 v
  | cases9 s0 s1 s2 s3 s4 s5 s6 s7 s8 v => self.cases9 s0 s1 s2 s3 s4 s5 s6 s7 s8 v
  | cases10 s0 s1 s2 s3 s4 s5 s6 s7 s8 s9 v =>
      self.cases10 s0 s1 s2 s3 s4 s5 s6 s7 s8 s9 v
  | startsWith s v => self.startsWith s v
  | endsWith s v => self.endsWith s v
  | pipe p => self.pipe p

/-- The value a registration carries. -/
def value : registration T → T
  | case_ _ v | cases1 _ v | cases2 _ _ v | cases3 _ _ _ v | cases4 _ _ _ _ v
  | cases5 _ _ _ _ _ v | cases6 _ _ _ _ _ _ v | cases7 _ _ _ _ _ _ _ v
  | cases8 _ _ _ _ _ _ _ _ v | cases9 _ _ _ _ _ _ _ _ _ v
  | cases10 _ _ _ _ _ _ _ _ _ _ v | startsWith _ v | endsWith _ v => v
  | pipe p => p.value

/-- The test of a registration, as the specification words it: equality with one of the
patterns for `case_`, `cases` and `operator|`, `p` a prefix of `s` (`s = p ++ t` for some
`t`) for `startsWith`, `p` a suffix of `s` (`s = t ++ p` for some `t`) for `endsWith`. -/
def Satisfied (s : string_view) : registration T → Prop
  | case_ s0 _ => s = s0
  | cases1 s0 _ => s = s0
  | cases2 s0 s1 _ => s = s0 ∨ s = s1
  | cases3 s0 s1 s2 _ => s = s0 ∨ s = s1 ∨ s = s2
  | cases4 s0 s1 s2 s3 _ => s = s0 ∨ s = s1 ∨ s = s2 ∨ s = s3
  | cases5 s0 s1 s2 s3 s4 _ => s = s0 ∨ s = s1 ∨ s = s2 ∨ s = s3 ∨ s = s4
  | cases6 s0 s1 s2 s3 s4 s5 _ => s = s0 ∨ s = s1 ∨ s = s2 ∨ s = s3 ∨ s = s4 ∨ s = s5
  | cases7 s0 s1 s2 s3 s4 s5 s6 _ =>
      s = s0 ∨ s = s1 ∨ s = s2 ∨ s = s3 ∨ s = s4 ∨ s = s5 ∨ s = s6
  | cases8 s0 s1 s2 s3 s4 s5 s6 s7 _ =>
      s = s0 ∨ s = s1 ∨ s = s2 ∨ s = s3 ∨ s = s4 ∨ s = s5 ∨ s = s6 ∨ s = s7
  | cases9 s0 s1 s2 s3 s4 s5 s6 s7 s8 _ =>
      s = s0 ∨ s = s1 ∨ s = s2 ∨ s = s3 ∨ s = s4 ∨ s = s5 ∨ s = s6 ∨ s = s7 ∨ s = s8
  | cases10 s0 s1 s2 s3 s4 s5 s6 s7 s8 s9 _ =>
      s = s0 ∨ s = s1 ∨ s = s2 ∨ s = s3 ∨ s = s4 ∨ s = s5 ∨ s = s6 ∨ s = s7 ∨ s = s8
        ∨ s = s9
  | startsWith p _ => p <+: s
  | endsWith p _ => p <:+ s
  | pipe p => s = p.key

end registration

/-- A chain of registrations applied to a builder from left to right, in call order. -/
def chain {T : Type} (self : string_switch T) (regs : List (registration T)) :
    string_switch T :=
  regs.foldl registration.call self

instance registration.decidableSatisfied {T : Type} (s : string_view) (r : registration T) :
    Decidable (r.Satisfied s) := by
  cases r <;> unfold registration.Satisfied <;> infer_instance

/-- The fold expression `(sswitch(str) | ... | case_t{key, value})`: a left fold of
`operator|` over the pairs, starting from the builder. -/
def fold_pipe {T : Type} (self : string_switch T) (ps : List (string_switch.case_t T)) :
    string_switch T :=
  ps.foldl string_switch.pipe self

/-- The value `x` computed by `test_unpack` in `tests/test_strswitch.cpp` from the tuple of
keys `t1`, the tuple of values `t2` and the input `str`. -/
def test_unpack (t1 : List string_view) (t2 : List Int) (str : string_view) : Int :=
  (fold_pipe (string_switch.ctor str) (List.zipWith string_switch.case_t.mk t1 t2)).orDefault
    id (-1)

/-! ## Move-only values

For `T = std::unique_ptr<α>` the trait `std::is_trivially_copy_constructible_v<T>` is false,
so `value_t` is `T&&`: a registration receives a reference to the variable of the caller and
moves from it only where the body says so. The functions of this section track that
variable: each returns the builder together with the variable of the caller after the call.
Moving from a `unique_ptr` hands over the pointer and leaves the source null. -/

/-- The type `std::unique_ptr<α>`, seen as the value it owns; `none` is the null pointer. -/
abbrev unique_ptr (α : Type) := Option α

namespace rvalue

variable {α : Type}

/-- The private member `elif` with `value_t = T&&`. -/
def elif (self : string_switch (unique_ptr α)) (s : string_view) (value : unique_ptr α) :
    string_switch (unique_ptr α) × unique_ptr α :=
  if self.m_result.isNone && self.m_str == s then
    ({ self with m_result := some value }, none)
  else (self, value)

/-- The member `endsWith` with `value_t = T&&`. -/
def endsWith (self : string_switch (unique_ptr α)) (s : string_view) (value : unique_ptr α) :
    string_switch (unique_ptr α) × unique_ptr α :=
  if self.m_result.isNone && ends_with self.m_str s then
    ({ self with m_result := some value }, none)
  else (self, value)

/-- The member `startsWith` with `value_t = T&&`. -/
def startsWith (self : string_switch (unique_ptr α)) (s : string_view)
    (value : unique_ptr α) : string_switch (unique_ptr α) × unique_ptr α :=
  if self.m_result.isNone && starts_with self.m_str s then
    ({ self with m_result := some value }, none)
  else (self, value)

/-- The member `case_` with `value_t = T&&`. -/
def case_ (self : string_switch (unique_ptr α)) (s0 : string_view) (value : unique_ptr α) :
    string_switch (unique_ptr α) × unique_ptr α :=
  elif self s0 value

/-- The overload `cases(s0, value)` with `value_t = T&&`. -/
def cases1 (self : string_switch (unique_ptr α)) (s0 : string_view) (value : unique_ptr α) :
    string_switch (unique_ptr α) × unique_ptr α :=
  case_ self s0 value

/-- The overload `cases(s0, s1, value)` with `value_t = T&&`: the object expression
`elif(s0, ...)` is evaluated before the second `elif`. -/
def cases2 (self : string_switch (unique_ptr α)) (s0 s1 : string_view)
    (value : unique_ptr α) : string_switch (unique_ptr α) × unique_ptr α :=
  let r := elif self s0 value
  elif r.1 s1 r.2

/-- The overload `cases(s0, s1, s2, T value)`: the parameter is declared `T`, not `value_t`,
so it is move-constructed from the variable of the caller when the call is made; the body
then works on the parameter, which dies with the call. -/
def cases3 (self : string_switch (unique_ptr α)) (s0 s1 s2 : string_view)
    (value : unique_ptr α) : string_switch (unique_ptr α) × unique_ptr α :=
  let param := value
  let r := elif self s0 param
  ((cases2 r.1 s1 s2 r.2).1, none)

/-- The overload `cases(s0, ..., s3, value)` with `value_t = T&&`. -/
def cases4 (self : string_switch (unique_ptr α)) (s0 s1 s2 s3 : string_view)
    (value : unique_ptr α) : string_switch (unique_ptr α) × unique_ptr α :=
  let r := elif self s0 value
  cases3 r.1 s1 s2 s3 r.2

/-- The overload `cases(s0, ..., s4, value)` with `value_t = T&&`. -/
def cases5 (self : string_switch (unique_ptr α)) (s0 s1 s2 s3 s4 : string_view)
    (value : unique_ptr α) : string_switch (unique_ptr α) × unique_ptr α :=
  let r := elif self s0 value
  cases4 r.1 s1 s2 s3 s4 r.2

/-- The overload `cases(s0, ..., s5, T value)`: parameter declared `T`, as in `cases3`. -/
def cases6 (self : string_switch (unique_ptr α)) (s0 s1 s2 s3 s4 s5 : string_view)
    (value : unique_ptr α) : string_switch (unique_ptr α) × unique_ptr α :=
  let param := value
  let r := elif self s0 param
  ((cases5 r.1 s1 s2 s3 s4 s5 r.2).1, none)

/-- The overload `cases(s0, ..., s6, value)` with `value_t = T&&`. -/
def cases7 (self : string_switch (unique_ptr α)) (s0 s1 s2 s3 s4 s5 s6 : string_view)
    (value : unique_ptr α) : string_switch (unique_ptr α) × unique_ptr α :=
  let r := elif self s0 value
  cases6 r.1 s1 s2 s3 s4 s5 s6 r.2

/-- The overload `cases(s0, ..., s7, value)` with `value_t = T&&`. -/
def cases8 (self : string_switch (unique_ptr α)) (s0 s1 s2 s3 s4 s5 s6 s7 : string_view)
    (value : unique_ptr α) : string_switch (unique_ptr α) × unique_ptr α :=
  let r := elif self s0 value
  cases7 r.1 s1 s2 s3 s4 s5 s6 s7 r.2

/-- The overload `cases(s0, ..., s8, T value)`: parameter declared `T`, as in `cases3`. -/
def cases9 (self : string_switch (unique_ptr α)) (s0 s1 s2 s3 s4 s5 s6 s7 s8 : string_view)
    (value : unique_ptr α) : string_switch (unique_ptr α) × unique_ptr α :=
  let param := value
  let r := elif self s0 param
  ((cases8 r.1 s1 s2 s3 s4 s5 s6 s7 s8 r.2).1, none)

/-- The overload `cases(s0, ..., s9, value)` with `value_t = T&&`. -/
def cases10 (self : string_switch (unique_ptr α))
    (s0 s1 s2 s3 s4 s5 s6 s7 s8 s9 : string_view) (value : unique_ptr α) :
    string_switch (unique_ptr α) × unique_ptr α :=
  let r := elif self s0 value
  cases9 r.1 s1 s2 s3 s4 s5 s6 s7 s8 s9 r.2

/-- The member `orDefault` with `R = T` and `value_t = T&&`: the result, and the variable of
the caller after the call. `R(std::move(*m_result))` leaves `value` alone;
`R((value_t)value)` moves from it. -/
def orDefault (self : string_switch (unique_ptr α)) (value : unique_ptr α) :
    unique_ptr α × unique_ptr α :=
  match self.m_result with
  | some r => (r, value)
  | none => (value, none)

/-- The chain `.case_(p0, move(v)).case_(p1, move(v))...` over the patterns `ps`, all calls
naming the same variable `v` of the caller. -/
def case__chain (self : string_switch (unique_ptr α)) (ps : List string_view)
    (value : unique_ptr α) : string_switch (unique_ptr α) × unique_ptr α :=
  ps.foldl (fun r p => case_ r.1 p r.2) (self, value)

end rvalue

/-- The expression of `test_sswitch_nonmovable`,
`string_switch<T>(s).case_(p1, move(v1)).cases(p2, p3, move(v2)).orDefault(move(v3))`:
the result `x`, then the variables `v1`, `v2`, `v3` of the caller after it. -/
def test_sswitch_nonmovable {α : Type} (s p1 p2 p3 : string_view)
    (v1 v2 v3 : unique_ptr α) : unique_ptr α × unique_ptr α × unique_ptr α × unique_ptr α :=
  let b1 := rvalue.case_ (string_switch.ctor s) p1 v1
  let b2 := rvalue.cases2 b1.1 p2 p3 v2
  let x := rvalue.orDefault b2.1 v3
  (x.1, b1.2, b2.2, x.2)

/-! ## The benchmark program `tests/bench_strswitch.cpp` -/

/-- The enumeration `Color`. -/
inductive Color where
  | Red | Green | Blue | Yellow | Black | White | Unknown
deriving DecidableEq, Repr

open Color in
/-- The function `string_switch_impl`. -/
def string_switch_impl (str : string_view) : Color :=
  (string_switch.ctor str
    |>.case_ "red".toList Red
    |>.case_ "green".toList Green
    |>.case_ "blue".toList Blue
    |>.case_ "yellow".toList Yellow
    |>.case_ "black".toList Black
    |>.case_ "white".toList White).orDefault id Unknown

open Color in
/-- The function `if_else_impl`. -/
def if_else_impl (str : string_view) : Color :=
  if str == "red".toList then Red
  else if str == "green".toList then Green
  else if str == "blue".toList then Blue
  else if str == "yellow".toList then Yellow
  else if str == "black".toList then Black
  else if str == "white".toList then White
  else Unknown

/-! ## The library string tests against their mathematical meaning -/

theorem starts_with_iff (s p : string_view) : starts_with s p = true ↔ p <+: s := by
  unfold starts_with
  constructor
  · intro h
    refine ⟨s.drop p.length, ?_⟩
    have h1 : s.take p.length = p := by simpa using h
    calc p ++ s.drop p.length = s.take p.length ++ s.drop p.length := by rw [h1]
      _ = s := List.take_append_drop _ _
  · rintro ⟨t, rfl⟩
    simp

theorem ends_with_iff (s p : string_view) : ends_with s p = true ↔ p <:+ s := by
  unfold ends_with
  constructor
  · intro h
    simp only [Bool.and_eq_true, decide_eq_true_eq, beq_iff_eq] at h
    refine ⟨s.take (s.length - p.length), ?_⟩
    calc s.take (s.length - p.length) ++ p
        = s.take (s.length - p.length) ++ s.drop (s.length - p.length) := by rw [h.2]
      _ = s := List.take_append_drop _ _
  · rintro ⟨t, rfl⟩
    simp

/-! ## One registration -/

namespace string_switch

variable {T R : Type}

theorem elif_populated (st : string_switch T) (s : string_view) (v x : T)
    (h : st.m_result = some x) : st.elif s v = st := by
  simp [elif, h]

theorem elif_hit (st : string_switch T) (s : string_view) (v : T)
    (h : st.m_result = none) (hs : st.m_str = s) :
    st.elif s v = { st with m_result := some v } := by
  simp [elif, h, hs]

theorem elif_miss (st : string_switch T) (s : string_view) (v : T)
    (hs : st.m_str ≠ s) : st.elif s v = st := by
  simp [elif, hs]

theorem elif_eq (st : string_switch T) (s : string_view) (v : T) :
    st.elif s v =
      if st.m_result.isNone ∧ st.m_str = s then { st with m_result := some v } else st := by
  cases h : st.m_result <;> by_cases hs : st.m_str = s <;> simp [elif, h, hs]

theorem startsWith_eq (st : string_switch T) (s : string_view) (v : T) :
    st.startsWith s v =
      if st.m_result.isNone ∧ s <+: st.m_str then { st with m_result := some v }
      else st := by
  unfold startsWith
  by_cases hs : starts_with st.m_str s = true
  · have hs2 := (starts_with_iff _ _).1 hs
    cases h : st.m_result <;> simp [h, hs, hs2]
  · have hs2 : ¬ s <+: st.m_str := fun h => hs ((starts_with_iff _ _).2 h)
    have hs3 : starts_with st.m_str s = false := by simpa using hs
    rw [if_neg (by simp [hs3]), if_neg (fun h => hs2 h.2)]

theorem endsWith_eq (st : string_switch T) (s : string_view) (v : T) :
    st.endsWith s v =
      if st.m_result.isNone ∧ s <:+ st.m_str then { st with m_result := some v }
      else st := by
  unfold endsWith
  by_cases hs : ends_with st.m_str s = true
  · have hs2 := (ends_with_iff _ _).1 hs
    cases h : st.m_result <;> simp [h, hs, hs2]
  · have hs2 : ¬ s <:+ st.m_str := fun h => hs ((ends_with_iff _ _).2 h)
    have hs3 : ends_with st.m_str s = false := by simpa using hs
    rw [if_neg (by simp [hs3]), if_neg (fun h => hs2 h.2)]

/-- A guarded write after `elif`: when the continuation `f` fills an empty slot with `v`
exactly under the test `c`, `f` after `elif s0 v` does so under `· = s0 ∨ c ·`. -/
theorem elif_then (st : string_switch T) (s0 : string_view) (v : T)
    (c : string_view → Prop) [DecidablePred c] (f : string_switch T → string_switch T)
    (hf : ∀ st1 : string_switch T, f st1 =
      if st1.m_result.isNone ∧ c st1.m_str then { st1 with m_result := some v } else st1) :
    f (st.elif s0 v) =
      if st.m_result.isNone ∧ (st.m_str = s0 ∨ c st.m_str) then
        { st with m_result := some v }
      else st := by
  rw [hf]
  obtain ⟨str, _ | x⟩ := st
  · by_cases h0 : str = s0 <;> by_cases h1 : c str <;> simp [elif, h0, h1]
  · simp [elif]

theorem cases2_eq (st : string_switch T) (s0 s1 : string_view) (v : T) :
    st.cases2 s0 s1 v =
      if st.m_result.isNone ∧ (st.m_str = s0 ∨ st.m_str = s1) then
        { st with m_result := some v }
      else st :=
  elif_then st s0 v (fun t => t = s1)
    (fun st1 => st1.elif s1 v)
    (fun st1 => elif_eq st1 s1 v)

theorem cases3_eq (st : string_switch T) (s0 s1 s2 : string_view) (v : T) :
    st.cases3 s0 s1 s2 v =
      if st.m_result.isNone ∧ (st.m_str = s0 ∨ st.m_str = s1 ∨ st.m_str = s2) then
        { st with m_result := some v }
      else st :=
  elif_then st s0 v (fun t => t = s1 ∨ t = s2)
    (fun st1 => st1.cases2 s1 s2 v)
    (fun st1 => cases2_eq st1 s1 s2 v)

theorem cases4_eq (st : string_switch T) (s0 s1 s2 s3 : string_view) (v : T) :
    st.cases4 s0 s1 s2 s3 v =
      if st.m_result.isNone ∧ (st.m_str = s0 ∨ st.m_str = s1 ∨ st.m_str = s2 ∨ st.m_str = s3) then
        { st with m_result := some v }
      else st :=
  elif_then st s0 v (fun t => t = s1 ∨ t = s2 ∨ t = s3)
    (fun st1 => st1.cases3 s1 s2 s3 v)
    (fun st1 => cases3_eq st1 s1 s2 s3 v)

theorem cases5_eq (st : string_switch T) (s0 s1 s2 s3 s4 : string_view) (v : T) :
    st.cases5 s0 s1 s2 s3 s4 v =
      if st.m_result.isNone ∧ (st.m_str = s0 ∨ st.m_str = s1 ∨ st.m_str = s2 ∨ st.m_str = s3 ∨
          st.m_str = s4) then
        { st with m_result := some v }
      else st :=
  elif_then st s0 v (fun t => t = s1 ∨ t = s2 ∨ t = s3 ∨ t = s4)
    (fun st1 => st1.cases4 s1 s2 s3 s4 v)
    (fun st1 => cases4_eq st1 s1 s2 s3 s4 v)

theorem cases6_eq (st : string_switch T) (s0 s1 s2 s3 s4 s5 : string_view) (v : T) :
    st.cases6 s0 s1 s2 s3 s4 s5 v =
      if st.m_result.isNone ∧ (st.m_str = s0 ∨ st.m_str = s1 ∨ st.m_str = s2 ∨ st.m_str = s3 ∨
          st.m_str = s4 ∨ st.m_str = s5) then
        { st with m_result := some v }
      else st :=
  elif_then st s0 v (fun t => t = s1 ∨ t = s2 ∨ t = s3 ∨ t = s4 ∨ t = s5)
    (fun st1 => st1.cases5 s1 s2 s3 s4 s5 v)
    (fun st1 => cases5_eq st1 s1 s2 s3 s4 s5 v)

theorem cases7_eq (st : string_switch T) (s0 s1 s2 s3 s4 s5 s6 : string_view) (v : T) :
    st.cases7 s0 s1 s2 s3 s4 s5 s6 v =
      if st.m_result.isNone ∧ (st.m_str = s0 ∨ st.m_str = s1 ∨ st.m_str = s2 ∨ st.m_str = s3 ∨
          st.m_str = s4 ∨ st.m_str = s5 ∨ st.m_str = s6) then
        { st with m_result := some v }
      else st :=
  elif_then st s0 v (fun t => t = s1 ∨ t = s2 ∨ t = s3 ∨ t = s4 ∨ t = s5 ∨ t = s6)
    (fun st1 => st1.cases6 s1 s2 s3 s4 s5 s6 v)
    (fun st1 => cases6_eq st1 s1 s2 s3 s4 s5 s6 v)

theorem cases8_eq (st : string_switch T) (s0 s1 s2 s3 s4 s5 s6 s7 : string_view) (v : T) :
    st.cases8 s0 s1 s2 s3 s4 s5 s6 s7 v =
      if st.m_result.isNone ∧ (st.m_str = s0 ∨ st.m_str = s1 ∨ st.m_str = s2 ∨ st.m_str = s3 ∨
          st.m_str = s4 ∨ st.m_str = s5 ∨ st.m_str = s6 ∨ st.m_str = s7) then
        { st with m_result := some v }
      else st :=
  elif_then st s0 v (fun t => t = s1 ∨ t = s2 ∨ t = s3 ∨ t = s4 ∨ t = s5 ∨ t = s6 ∨ t = s7)
    (fun st1 => st1.cases7 s1 s2 s3 s4 s5 s6 s7 v)
    (fun st1 => cases7_eq st1 s1 s2 s3 s4 s5 s6 s7 v)

theorem cases9_eq (st : string_switch T) (s0 s1 s2 s3 s4 s5 s6 s7 s8 : string_view) (v : T) :
    st.cases9 s0 s1 s2 s3 s4 s5 s6 s7 s8 v =
      if st.m_result.isNone ∧ (st.m_str = s0 ∨ st.m_str = s1 ∨ st.m_str = s2 ∨ st.m_str = s3 ∨
          st.m_str = s4 ∨ st.m_str = s5 ∨ st.m_str = s6 ∨ st.m_str = s7 ∨ st.m_str = s8) then
        { st with m_result := some v }
      else st :=
  elif_then st s0 v (fun t => t = s1 ∨ t = s2 ∨ t = s3 ∨ t = s4 ∨ t = s5 ∨ t = s6 ∨ t = s7 ∨
      t = s8)
    (fun st1 => st1.cases8 s1 s2 s3 s4 s5 s6 s7 s8 v)
    (fun st1 => cases8_eq st1 s1 s2 s3 s4 s5 s6 s7 s8 v)

theorem cases10_eq (st : string_switch T) (s0 s1 s2 s3 s4 s5 s6 s7 s8 s9 : string_view) (v : T) :
    st.cases10 s0 s1 s2 s3 s4 s5 s6 s7 s8 s9 v =
      if st.m_result.isNone ∧ (st.m_str = s0 ∨ st.m_str = s1 ∨ st.m_str = s2 ∨ st.m_str = s3 ∨
          st.m_str = s4 ∨ st.m_str = s5 ∨ st.m_str = s6 ∨ st.m_str = s7 ∨ st.m_str = s8 ∨
          st.m_str = s9) then
        { st with m_result := some v }
      else st :=
  elif_then st s0 v (fun t => t = s1 ∨ t = s2 ∨ t = s3 ∨ t = s4 ∨ t = s5 ∨ t = s6 ∨ t = s7 ∨
      t = s8 ∨ t = s9)
    (fun st1 => st1.cases9 s1 s2 s3 s4 s5 s6 s7 s8 s9 v)
    (fun st1 => cases9_eq st1 s1 s2 s3 s4 s5 s6 s7 s8 s9 v)

end string_switch

namespace registration

variable {T R : Type}

open string_switch in
/-- Every registration is one guarded write: it fills the slot with its value when the
slot is empty and its test is satisfied, and returns the builder as it was otherwise. -/
theorem call_eq (st : string_switch T) (r : registration T) :
    call st r =
      if st.m_result.isNone ∧ r.Satisfied st.m_str then
        { st with m_result := some r.value }
      else st := by
  cases r <;>
    simp only [call, Satisfied, value, string_switch.pipe, string_switch.case_,
      string_switch.cases1, startsWith_eq, endsWith_eq, elif_eq, cases2_eq, cases3_eq,
      cases4_eq, cases5_eq, cases6_eq, cases7_eq, cases8_eq, cases9_eq, cases10_eq]

end registration

/-! ## Chains -/

section chains

variable {T R : Type}

theorem chain_nil (st : string_switch T) : chain st [] = st := rfl

theorem chain_cons (st : string_switch T) (r : registration T) (regs : List (registration T)) :
    chain st (r :: regs) = chain (registration.call st r) regs := rfl

theorem chain_append (st : string_switch T) (pre post : List (registration T)) :
    chain st (pre ++ post) = chain (chain st pre) post := by
  simp [chain, List.foldl_append]

/-- A populated slot is final: no chain of registrations changes the builder. -/
theorem chain_populated (st : string_switch T) (x : T) (h : st.m_result = some x)
    (regs : List (registration T)) : chain st regs = st := by
  induction regs with
  | nil => rfl
  | cons r regs ih =>
    rw [chain_cons, registration.call_eq, if_neg (by simp [h]), ih]

/-- A chain none of whose tests is satisfied leaves the builder as it was. -/
theorem chain_none_satisfied (st : string_switch T) (regs : List (registration T))
    (h : ∀ r ∈ regs, ¬ r.Satisfied st.m_str) : chain st regs = st := by
  induction regs with
  | nil => rfl
  | cons r regs ih =>
    have hr : ¬ r.Satisfied st.m_str := h r (List.mem_cons_self _ _)
    rw [chain_cons, registration.call_eq, if_neg (fun hc => hr hc.2)]
    exact ih (fun q hq => h q (List.mem_cons_of_mem _ hq))

/-- On an empty slot the first satisfied registration of a chain fills the slot, whatever
follows it. -/
theorem chain_first_satisfied (st : string_switch T) (hst : st.m_result = none)
    (pre : List (registration T)) (r : registration T) (post : List (registration T))
    (hpre : ∀ q ∈ pre, ¬ q.Satisfied st.m_str) (hr : r.Satisfied st.m_str) :
    chain st (pre ++ r :: post) = { st with m_result := some r.value } := by
  rw [chain_append, chain_none_satisfied st pre hpre, chain_cons, registration.call_eq,
    if_pos ⟨by simp [hst], hr⟩]
  exact chain_populated _ r.value rfl post

/-- The input string is never changed by a chain. -/
theorem chain_m_str (st : string_switch T) (regs : List (registration T)) :
    (chain st regs).m_str = st.m_str := by
  induction regs generalizing st with
  | nil => rfl
  | cons r regs ih =>
    rw [chain_cons, ih, registration.call_eq]
    split <;> rfl

/-- A chain on an empty slot ends with an empty slot exactly when no test is satisfied. -/
theorem chain_m_result_eq_none_iff (st : string_switch T) (hst : st.m_result = none)
    (regs : List (registration T)) :
    (chain st regs).m_result = none ↔ ∀ r ∈ regs, ¬ r.Satisfied st.m_str := by
  constructor
  · intro h
    induction regs with
    | nil => intro r hr; cases hr
    | cons a regs ih =>
      by_cases ha : a.Satisfied st.m_str
      · have hfill := chain_first_satisfied st hst [] a regs (by simp) ha
        rw [List.nil_append] at hfill
        rw [hfill] at h
        exact Option.noConfusion h
      · have hcall : registration.call st a = st := by
          rw [registration.call_eq, if_neg (fun hc => ha hc.2)]
        rw [chain_cons, hcall] at h
        intro r hr
        rcases List.mem_cons.1 hr with rfl | hr
        · exact ha
        · exact ih h r hr
  · intro h
    rw [chain_none_satisfied st regs h, hst]

end chains

/-! ## Move-only values against the builder state

The functions of `rvalue` compute the same builder as the plain members; the variable of
the caller is either still the value it was or the slot is populated, in which case no
later registration looks at it. -/

section moves

variable {α : Type}

theorem rvalue_elif_fst (st : string_switch (unique_ptr α)) (s : string_view)
    (v w : unique_ptr α) (h : w = v ∨ st.m_result.isSome) :
    (rvalue.elif st s w).1 = st.elif s v := by
  obtain ⟨str, _ | x⟩ := st
  · rcases h with rfl | h
    · unfold rvalue.elif string_switch.elif
      split <;> rfl
    · simp at h
  · simp [rvalue.elif, string_switch.elif]

theorem rvalue_elif_snd (st : string_switch (unique_ptr α)) (s : string_view)
    (v w : unique_ptr α) (h : w = v ∨ st.m_result.isSome) :
    (rvalue.elif st s w).2 = v ∨ (rvalue.elif st s w).1.m_result.isSome := by
  unfold rvalue.elif
  split
  · exact Or.inr rfl
  · exact h

/-- The variable of the caller after `elif`: null when the call filled the slot, untouched
otherwise. -/
theorem rvalue_elif_consumes (st : string_switch (unique_ptr α)) (s : string_view)
    (v : unique_ptr α) :
    (rvalue.elif st s v).2 = if st.m_result.isNone ∧ st.m_str = s then none else v := by
  obtain ⟨str, _ | x⟩ := st <;> by_cases hs : str = s <;> simp [rvalue.elif, hs]

/-- The variable of the caller after `startsWith`. -/
theorem rvalue_startsWith_consumes (st : string_switch (unique_ptr α)) (s : string_view)
    (v : unique_ptr α) :
    (rvalue.startsWith st s v).2
      = if st.m_result.isNone ∧ s <+: st.m_str then none else v := by
  unfold rvalue.startsWith
  by_cases hs : starts_with st.m_str s = true
  · have hp := (starts_with_iff _ _).1 hs
    cases h : st.m_result <;> simp [hs, hp]
  · have hp : ¬ s <+: st.m_str := fun h => hs ((starts_with_iff _ _).2 h)
    have hs3 : starts_with st.m_str s = false := by simpa using hs
    rw [if_neg (by simp [hs3]), if_neg (fun h => hp h.2)]

/-- The variable of the caller after `endsWith`. -/
theorem rvalue_endsWith_consumes (st : string_switch (unique_ptr α)) (s : string_view)
    (v : unique_ptr α) :
    (rvalue.endsWith st s v).2
      = if st.m_result.isNone ∧ s <:+ st.m_str then none else v := by
  unfold rvalue.endsWith
  by_cases hs : ends_with st.m_str s = true
  · have hp := (ends_with_iff _ _).1 hs
    cases h : st.m_result <;> simp [hs, hp]
  · have hp : ¬ s <:+ st.m_str := fun h => hs ((ends_with_iff _ _).2 h)
    have hs3 : ends_with st.m_str s = false := by simpa using hs
    rw [if_neg (by simp [hs3]), if_neg (fun h => hp h.2)]

/-- The variable of the caller after `cases` with two patterns. -/
theorem rvalue_cases2_consumes (st : string_switch (unique_ptr α)) (s0 s1 : string_view)
    (v : unique_ptr α) :
    (rvalue.cases2 st s0 s1 v).2
      = if st.m_result.isNone ∧ (st.m_str = s0 ∨ st.m_str = s1) then none else v := by
  obtain ⟨str, _ | x⟩ := st
  · by_cases h0 : str = s0
    · subst h0
      simp [rvalue.cases2, rvalue.elif]
    · by_cases h1 : str = s1
      · subst h1
        simp [rvalue.cases2, rvalue.elif, h0]
      · simp [rvalue.cases2, rvalue.elif, h0, h1]
  · simp [rvalue.cases2, rvalue.elif]

theorem rvalue_step
    (fr : string_switch (unique_ptr α) → unique_ptr α →
      string_switch (unique_ptr α) × unique_ptr α)
    (f : string_switch (unique_ptr α) → string_switch (unique_ptr α)) (v : unique_ptr α)
    (hf : ∀ b u, (u = v ∨ b.m_result.isSome) → (fr b u).1 = f b)
    (st : string_switch (unique_ptr α)) (s0 : string_view) (w : unique_ptr α)
    (h : w = v ∨ st.m_result.isSome) :
    (fr (rvalue.elif st s0 w).1 (rvalue.elif st s0 w).2).1 = f (st.elif s0 v) := by
  rw [hf _ _ (rvalue_elif_snd st s0 v w h), rvalue_elif_fst st s0 v w h]

theorem rvalue_cases2_fst (st : string_switch (unique_ptr α)) (s0 s1 : string_view)
    (v w : unique_ptr α) (h : w = v ∨ st.m_result.isSome) :
    (rvalue.cases2 st s0 s1 w).1 = st.cases2 s0 s1 v :=
  rvalue_step (fun b u => rvalue.elif b s1 u)
    (fun b => b.elif s1 v) v
    (fun b u hb => rvalue_elif_fst b s1 v u hb) st s0 w h

theorem rvalue_cases3_fst (st : string_switch (unique_ptr α)) (s0 s1 s2 : string_view)
    (v w : unique_ptr α) (h : w = v ∨ st.m_result.isSome) :
    (rvalue.cases3 st s0 s1 s2 w).1 = st.cases3 s0 s1 s2 v :=
  rvalue_step (fun b u => rvalue.cases2 b s1 s2 u)
    (fun b => b.cases2 s1 s2 v) v
    (fun b u hb => rvalue_cases2_fst b s1 s2 v u hb) st s0 w h

theorem rvalue_cases4_fst (st : string_switch (unique_ptr α)) (s0 s1 s2 s3 : string_view)
    (v w : unique_ptr α) (h : w = v ∨ st.m_result.isSome) :
    (rvalue.cases4 st s0 s1 s2 s3 w).1 = st.cases4 s0 s1 s2 s3 v :=
  rvalue_step (fun b u => rvalue.cases3 b s1 s2 s3 u)
    (fun b => b.cases3 s1 s2 s3 v) v
    (fun b u hb => rvalue_cases3_fst b s1 s2 s3 v u hb) st s0 w h

theorem rvalue_cases5_fst (st : string_switch (unique_ptr α)) (s0 s1 s2 s3 s4 : string_view)
    (v w : unique_ptr α) (h : w = v ∨ st.m_result.isSome) :
    (rvalue.cases5 st s0 s1 s2 s3 s4 w).1 = st.cases5 s0 s1 s2 s3 s4 v :=
  rvalue_step (fun b u => rvalue.cases4 b s1 s2 s3 s4 u)
    (fun b => b.cases4 s1 s2 s3 s4 v) v
    (fun b u hb => rvalue_cases4_fst b s1 s2 s3 s4 v u hb) st s0 w h

theorem rvalue_cases6_fst (st : string_switch (unique_ptr α)) (s0 s1 s2 s3 s4 s5 : string_view)
    (v w : unique_ptr α) (h : w = v ∨ st.m_result.isSome) :
    (rvalue.cases6 st s0 s1 s2 s3 s4 s5 w).1 = st.cases6 s0 s1 s2 s3 s4 s5 v :=
  rvalue_step (fun b u => rvalue.cases5 b s1 s2 s3 s4 s5 u)
    (fun b => b.cases5 s1 s2 s3 s4 s5 v) v
    (fun b u hb => rvalue_cases5_fst b s1 s2 s3 s4 s5 v u hb) st s0 w h

theorem rvalue_cases7_fst (st : string_switch (unique_ptr α)) (s0 s1 s2 s3 s4 s5 s6 : string_view)
    (v w : unique_ptr α) (h : w = v ∨ st.m_result.isSome) :
    (rvalue.cases7 st s0 s1 s2 s3 s4 s5 s6 w).1 = st.cases7 s0 s1 s2 s3 s4 s5 s6 v :=
  rvalue_step (fun b u => rvalue.cases6 b s1 s2 s3 s4 s5 s6 u)
    (fun b => b.cases6 s1 s2 s3 s4 s5 s6 v) v
    (fun b u hb => rvalue_cases6_fst b s1 s2 s3 s4 s5 s6 v u hb) st s0 w h

theorem rvalue_cases8_fst (st : string_switch (unique_ptr α)) (s0 s1 s2 s3 s4 s5 s6 s7 : string_view)
    (v w : unique_ptr α) (h : w = v ∨ st.m_result.isSome) :
    (rvalue.cases8 st s0 s1 s2 s3 s4 s5 s6 s7 w).1 = st.cases8 s0 s1 s2 s3 s4 s5 s6 s7 v :=
  rvalue_step (fun b u => rvalue.cases7 b s1 s2 s3 s4 s5 s6 s7 u)
    (fun b => b.cases7 s1 s2 s3 s4 s5 s6 s7 v) v
    (fun b u hb => rvalue_cases7_fst b s1 s2 s3 s4 s5 s6 s7 v u hb) st s0 w h

theorem rvalue_cases9_fst (st : string_switch (unique_ptr α)) (s0 s1 s2 s3 s4 s5 s6 s7 s8 : string_view)
    (v w : unique_ptr α) (h : w = v ∨ st.m_result.isSome) :
    (rvalue.cases9 st s0 s1 s2 s3 s4 s5 s6 s7 s8 w).1 = st.cases9 s0 s1 s2 s3 s4 s5 s6 s7 s8 v :=
  rvalue_step (fun b u => rvalue.cases8 b s1 s2 s3 s4 s5 s6 s7 s8 u)
    (fun b => b.cases8 s1 s2 s3 s4 s5 s6 s7 s8 v) v
    (fun b u hb => rvalue_cases8_fst b s1 s2 s3 s4 s5 s6 s7 s8 v u hb) st s0 w h

theorem rvalue_cases10_fst (st : string_switch (unique_ptr α)) (s0 s1 s2 s3 s4 s5 s6 s7 s8 s9 : string_view)
    (v w : unique_ptr α) (h : w = v ∨ st.m_result.isSome) :
    (rvalue.cases10 st s0 s1 s2 s3 s4 s5 s6 s7 s8 s9 w).1 = st.cases10 s0 s1 s2 s3 s4 s5 s6 s7 s8 s9 v :=
  rvalue_step (fun b u => rvalue.cases9 b s1 s2 s3 s4 s5 s6 s7 s8 s9 u)
    (fun b => b.cases9 s1 s2 s3 s4 s5 s6 s7 s8 s9 v) v
    (fun b u hb => rvalue_cases9_fst b s1 s2 s3 s4 s5 s6 s7 s8 s9 v u hb) st s0 w h

theorem rvalue_case__chain_fst (ps : List string_view) (st : string_switch (unique_ptr α))
    (v w : unique_ptr α) (h : w = v ∨ st.m_result.isSome) :
    (rvalue.case__chain st ps w).1 = ps.foldl (fun b p => b.case_ p v) st := by
  induction ps generalizing st w with
  | nil => rfl
  | cons p ps ih =>
    show (rvalue.case__chain (rvalue.elif st p w).1 ps (rvalue.elif st p w).2).1
      = ps.foldl (fun b p => b.case_ p v) (st.elif p v)
    rw [ih _ _ (rvalue_elif_snd st p v w h), rvalue_elif_fst st p v w h]

end moves

/-! ## The contract of the builder -/

section contract

variable {T R : Type}

open registration in
/-- C1: for every input `s`, every chain of registrations on `string_switch(s)` and every
default `d`, `orDefault(d)` returns `R` constructed from the value of the first registration
in call order whose test is satisfied by `s`, and `R` constructed from `d` when no test is
satisfied. -/
theorem orDefault_chain_first_satisfied (conv : T → R) (s : string_view)
    (regs : List (registration T)) (d : T) :
    (∀ pre r post, regs = pre ++ r :: post → (∀ q ∈ pre, ¬ q.Satisfied s) → r.Satisfied s →
        (chain (string_switch.ctor s) regs).orDefault conv d = conv r.value) ∧
    ((∀ r ∈ regs, ¬ r.Satisfied s) →
        (chain (string_switch.ctor s) regs).orDefault conv d = conv d) := by
  constructor
  · rintro pre r post rfl hpre hr
    rw [chain_first_satisfied (string_switch.ctor s) rfl pre r post hpre hr]
    rfl
  · intro h
    rw [chain_none_satisfied (string_switch.ctor s) regs h]
    rfl

open registration in
theorem orDefault_chain_first_satisfied_witness :
    ((∀ q ∈ [case_ "a".toList (1 : Int)], ¬ q.Satisfied "abc".toList) ∧
      (case_ "abc".toList (2 : Int)).Satisfied "abc".toList ∧
      (chain (string_switch.ctor "abc".toList)
        [case_ "a".toList 1, case_ "abc".toList 2, case_ "fdsfsdf".toList 3,
          case_ "".toList 4]).orDefault id (0 : Int) = 2) ∧
    ((∀ r ∈ [cases2 "abs".toList "hello".toList (0 : Int), startsWith "b".toList 1,
          endsWith "ab".toList 2], ¬ r.Satisfied "abc".toList) ∧
      (chain (string_switch.ctor "abc".toList)
        [cases2 "abs".toList "hello".toList (0 : Int), startsWith "b".toList 1,
          endsWith "ab".toList 2]).orDefault id (-1 : Int) = -1) :=
  ⟨⟨by decide, by decide,
    (orDefault_chain_first_satisfied id "abc".toList _ 0).1 [case_ "a".toList 1]
      (case_ "abc".toList 2) [case_ "fdsfsdf".toList 3, case_ "".toList 4] rfl
      (by decide) (by decide)⟩,
   ⟨by decide, (orDefault_chain_first_satisfied id "abc".toList _ (-1)).2 (by decide)⟩⟩

/-- C2: `case_(p, v)` keeps the input; the slot becomes `some v` when it was empty and the
input equals `p`, and is the slot as it was in every other case. -/
theorem case__spec (st : string_switch T) (p : string_view) (v : T) :
    (st.case_ p v).m_str = st.m_str ∧
    (st.m_result = none → st.m_str = p → (st.case_ p v).m_result = some v) ∧
    (¬ (st.m_result = none ∧ st.m_str = p) → (st.case_ p v).m_result = st.m_result) := by
  unfold string_switch.case_
  rw [string_switch.elif_eq]
  refine ⟨?_, ?_, ?_⟩
  · split <;> rfl
  · intro h hp
    rw [if_pos ⟨by simp [h], hp⟩]
  · intro h
    rw [if_neg (fun hc => h ⟨by simpa using hc.1, hc.2⟩)]

theorem case__spec_witness :
    ((string_switch.ctor "abc".toList : string_switch Int).m_result = none ∧
      (string_switch.ctor "abc".toList : string_switch Int).m_str = "abc".toList ∧
      ((string_switch.ctor "abc".toList : string_switch Int).case_ "abc".toList 2).m_result
        = some 2) ∧
    (¬ ((string_switch.ctor "abc".toList : string_switch Int).m_result = none ∧
        (string_switch.ctor "abc".toList : string_switch Int).m_str = "a".toList) ∧
      ((string_switch.ctor "abc".toList : string_switch Int).case_ "a".toList 1).m_result
        = none) ∧
    (¬ ((⟨"abc".toList, some 2⟩ : string_switch Int).m_result = none ∧
        (⟨"abc".toList, some 2⟩ : string_switch Int).m_str = "abc".toList) ∧
      ((⟨"abc".toList, some 2⟩ : string_switch Int).case_ "abc".toList 5).m_result
        = some 2) :=
  ⟨⟨rfl, rfl, (case__spec (string_switch.ctor "abc".toList) "abc".toList (2 : Int)).2.1
      rfl rfl⟩,
   ⟨by decide, (case__spec (string_switch.ctor "abc".toList) "a".toList (1 : Int)).2.2
      (by decide)⟩,
   ⟨by decide, (case__spec ⟨"abc".toList, some 2⟩ "abc".toList (5 : Int)).2.2
      (by decide)⟩⟩

open registration in
/-- C3 (first match wins): when `r1` is the first registration of a chain whose test is
satisfied by the input and a later registration `r2` is satisfied too, `orDefault(d)` and
the implicit conversion both return `R` constructed from the value of `r1`, and so never
the different result that the value of `r2` would give. -/
theorem first_match_wins (conv : T → R) (s : string_view)
    (pre : List (registration T)) (r1 : registration T) (mid : List (registration T))
    (r2 : registration T) (post : List (registration T)) (d : T)
    (hpre : ∀ q ∈ pre, ¬ q.Satisfied s) (h1 : r1.Satisfied s) (_h2 : r2.Satisfied s) :
    (chain (string_switch.ctor s) (pre ++ r1 :: (mid ++ r2 :: post))).orDefault conv d
      = conv r1.value ∧
    (chain (string_switch.ctor s) (pre ++ r1 :: (mid ++ r2 :: post))).operator_R conv
      = .ok (conv r1.value) ∧
    (conv r2.value ≠ conv r1.value →
      (chain (string_switch.ctor s) (pre ++ r1 :: (mid ++ r2 :: post))).orDefault conv d
        ≠ conv r2.value ∧
      (chain (string_switch.ctor s) (pre ++ r1 :: (mid ++ r2 :: post))).operator_R conv
        ≠ .ok (conv r2.value)) := by
  rw [chain_first_satisfied (string_switch.ctor s) rfl pre r1 _ hpre h1]
  refine ⟨rfl, rfl, fun hne => ⟨fun h => hne h.symm, fun h => ?_⟩⟩
  have h3 : conv r1.value = conv r2.value := Except.ok.inj h
  exact hne h3.symm

open registration in
theorem first_match_wins_witness :
    (∀ q ∈ ([] : List (registration Int)), ¬ q.Satisfied "abc".toList) ∧
    (case_ "abc".toList (0 : Int)).Satisfied "abc".toList ∧
    (cases2 "abc".toList "hello".toList (1 : Int)).Satisfied "abc".toList ∧
    (chain (string_switch.ctor "abc".toList)
        [case_ "abc".toList (0 : Int), cases2 "abc".toList "hello".toList 1]).orDefault
      id 7 = 0 ∧
    (chain (string_switch.ctor "abc".toList)
        [case_ "abc".toList (0 : Int), cases2 "abc".toList "hello".toList 1]).operator_R
      id = .ok 0 :=
  ⟨by decide, by decide, by decide,
    (first_match_wins id "abc".toList [] (case_ "abc".toList (0 : Int)) []
      (cases2 "abc".toList "hello".toList 1) [] 7 (by decide) (by decide) (by decide)).1,
    (first_match_wins id "abc".toList [] (case_ "abc".toList (0 : Int)) []
      (cases2 "abc".toList "hello".toList 1) [] 7 (by decide) (by decide) (by decide)).2.1⟩

/-- C4 (no match, default): when no registration of the chain (the empty chain included) is
satisfied by the input, `orDefault(D)` returns `R` constructed from `D`, which is `D`
itself when `R = T`. -/
theorem no_match_default (conv : T → R) (s : string_view) (regs : List (registration T))
    (D : T) (h : ∀ r ∈ regs, ¬ r.Satisfied s) :
    (chain (string_switch.ctor s) regs).orDefault conv D = conv D ∧
    (chain (string_switch.ctor s) regs).orDefault id D = D := by
  rw [chain_none_satisfied (string_switch.ctor s) regs h]
  exact ⟨rfl, rfl⟩

open registration in
theorem no_match_default_witness :
    ((∀ r ∈ ([] : List (registration Int)), ¬ r.Satisfied "abc".toList) ∧
      (chain (string_switch.ctor "abc".toList) ([] : List (registration Int))).orDefault
        id (-1) = -1) ∧
    ((∀ r ∈ [case_ "a".toList (1 : Int), startsWith "bc".toList 2, endsWith "ab".toList 3],
        ¬ r.Satisfied "abc".toList) ∧
      (chain (string_switch.ctor "abc".toList)
        [case_ "a".toList (1 : Int), startsWith "bc".toList 2,
          endsWith "ab".toList 3]).orDefault id (-1) = -1) :=
  ⟨⟨by decide, (no_match_default id "abc".toList [] (-1 : Int) (by decide)).2⟩,
   ⟨by decide, (no_match_default id "abc".toList _ (-1 : Int) (by decide)).2⟩⟩

/-- C5: the implicit conversion to `R` violates its assertion (and returns no value) exactly
when no registration of the chain is satisfied by the input, which is exactly when the slot
is still empty; when some registration is satisfied the slot holds a value and the
conversion returns `R` constructed from it. -/
theorem operator_R_fatal_iff (conv : T → R) (s : string_view)
    (regs : List (registration T)) :
    ((chain (string_switch.ctor s) regs).operator_R conv
        = .error "Fell off the end of a string-switch" ↔ ∀ r ∈ regs, ¬ r.Satisfied s) ∧
    ((∀ y, (chain (string_switch.ctor s) regs).operator_R conv ≠ .ok y)
        ↔ ∀ r ∈ regs, ¬ r.Satisfied s) ∧
    ((chain (string_switch.ctor s) regs).m_result = none ↔ ∀ r ∈ regs, ¬ r.Satisfied s) ∧
    ((∃ r ∈ regs, r.Satisfied s) →
      ∃ x, (chain (string_switch.ctor s) regs).m_result = some x ∧
        (chain (string_switch.ctor s) regs).operator_R conv = .ok (conv x)) := by
  have key := chain_m_result_eq_none_iff (string_switch.ctor s) rfl regs
  have hctor : (string_switch.ctor s : string_switch T).m_str = s := rfl
  rw [hctor] at key
  refine ⟨?_, ?_, key, ?_⟩
  · rw [← key]
    unfold string_switch.operator_R
    cases (chain (string_switch.ctor s) regs).m_result <;> simp
  · rw [← key]
    unfold string_switch.operator_R
    cases (chain (string_switch.ctor s) regs).m_result <;> simp
  · rintro ⟨r, hr, hs⟩
    cases hres : (chain (string_switch.ctor s) regs).m_result with
    | none => exact absurd hs (key.1 hres r hr)
    | some x => exact ⟨x, rfl, by simp [string_switch.operator_R, hres]⟩

open registration in
theorem operator_R_fatal_iff_witness :
    (∃ r ∈ [case_ "a".toList (1 : Int), case_ "abc".toList 2, case_ "fdsfsdf".toList 3,
        case_ "".toList 4], r.Satisfied "abc".toList) ∧
    ∃ x : Int, (chain (string_switch.ctor "abc".toList)
        [case_ "a".toList (1 : Int), case_ "abc".toList 2, case_ "fdsfsdf".toList 3,
          case_ "".toList 4]).m_result = some x ∧
      (chain (string_switch.ctor "abc".toList)
        [case_ "a".toList (1 : Int), case_ "abc".toList 2, case_ "fdsfsdf".toList 3,
          case_ "".toList 4]).operator_R id = .ok (id x) :=
  ⟨by decide, (operator_R_fatal_iff id "abc".toList _).2.2.2 (by decide)⟩

/-- C6 (multi-pattern equivalence): for every arity from 2 to 10, `cases(p0, ..., V)`
yields the same builder (same input, same slot) as the chain of `case_(pi, V)` calls taken
from left to right; `cases(p0, p1, V)` on an empty slot with the input equal to `p1` yields
the slot `V`; and the same equality of builders holds for a move-only `V`, where every call
is handed the same variable of the caller. -/
theorem cases_eq_case__chain {α : Type} (st : string_switch T)
    (p0 p1 p2 p3 p4 p5 p6 p7 p8 p9 : string_view) (V : T)
    (b : string_switch (unique_ptr α)) (w : unique_ptr α) :
    (st.cases2 p0 p1 V = (st |>.case_ p0 V |>.case_ p1 V) ∧
      st.cases3 p0 p1 p2 V = (st |>.case_ p0 V |>.case_ p1 V |>.case_ p2 V) ∧
      st.cases4 p0 p1 p2 p3 V = (st |>.case_ p0 V |>.case_ p1 V |>.case_ p2 V |>.case_ p3 V) ∧
      st.cases5 p0 p1 p2 p3 p4 V =
        (st |>.case_ p0 V |>.case_ p1 V |>.case_ p2 V |>.case_ p3 V |>.case_ p4 V) ∧
      st.cases6 p0 p1 p2 p3 p4 p5 V =
        (st |>.case_ p0 V |>.case_ p1 V |>.case_ p2 V |>.case_ p3 V |>.case_ p4 V |>.case_ p5 V) ∧
      st.cases7 p0 p1 p2 p3 p4 p5 p6 V =
        (st |>.case_ p0 V |>.case_ p1 V |>.case_ p2 V |>.case_ p3 V |>.case_ p4 V |>.case_ p5 V
          |>.case_ p6 V) ∧
      st.cases8 p0 p1 p2 p3 p4 p5 p6 p7 V =
        (st |>.case_ p0 V |>.case_ p1 V |>.case_ p2 V |>.case_ p3 V |>.case_ p4 V |>.case_ p5 V
          |>.case_ p6 V |>.case_ p7 V) ∧
      st.cases9 p0 p1 p2 p3 p4 p5 p6 p7 p8 V =
        (st |>.case_ p0 V |>.case_ p1 V |>.case_ p2 V |>.case_ p3 V |>.case_ p4 V |>.case_ p5 V
          |>.case_ p6 V |>.case_ p7 V |>.case_ p8 V) ∧
      st.cases10 p0 p1 p2 p3 p4 p5 p6 p7 p8 p9 V =
        (st |>.case_ p0 V |>.case_ p1 V |>.case_ p2 V |>.case_ p3 V |>.case_ p4 V |>.case_ p5 V
          |>.case_ p6 V |>.case_ p7 V |>.case_ p8 V |>.case_ p9 V)) ∧
    ((⟨p1, none⟩ : string_switch T).cases2 p0 p1 V) = ⟨p1, some V⟩ ∧
    ((rvalue.cases2 b p0 p1 w).1 = (rvalue.case__chain b [p0, p1] w).1 ∧
      (rvalue.cases3 b p0 p1 p2 w).1 = (rvalue.case__chain b [p0, p1, p2] w).1 ∧
      (rvalue.cases4 b p0 p1 p2 p3 w).1 = (rvalue.case__chain b [p0, p1, p2, p3] w).1 ∧
      (rvalue.cases5 b p0 p1 p2 p3 p4 w).1 = (rvalue.case__chain b [p0, p1, p2, p3, p4] w).1 ∧
      (rvalue.cases6 b p0 p1 p2 p3 p4 p5 w).1 =
        (rvalue.case__chain b [p0, p1, p2, p3, p4, p5] w).1 ∧
      (rvalue.cases7 b p0 p1 p2 p3 p4 p5 p6 w).1 =
        (rvalue.case__chain b [p0, p1, p2, p3, p4, p5, p6] w).1 ∧
      (rvalue.cases8 b p0 p1 p2 p3 p4 p5 p6 p7 w).1 =
        (rvalue.case__chain b [p0, p1, p2, p3, p4, p5, p6, p7] w).1 ∧
      (rvalue.cases9 b p0 p1 p2 p3 p4 p5 p6 p7 p8 w).1 =
        (rvalue.case__chain b [p0, p1, p2, p3, p4, p5, p6, p7, p8] w).1 ∧
      (rvalue.cases10 b p0 p1 p2 p3 p4 p5 p6 p7 p8 p9 w).1 =
        (rvalue.case__chain b [p0, p1, p2, p3, p4, p5, p6, p7, p8, p9] w).1) := by
  refine ⟨⟨rfl, rfl, rfl, rfl, rfl, rfl, rfl, rfl, rfl⟩, ?_,
    ?_, ?_, ?_, ?_, ?_, ?_, ?_, ?_, ?_⟩
  · rw [string_switch.cases2_eq]
    simp
  · rw [rvalue_cases2_fst b p0 p1 w w (Or.inl rfl),
      rvalue_case__chain_fst [p0, p1] b w w (Or.inl rfl)]
    rfl
  · rw [rvalue_cases3_fst b p0 p1 p2 w w (Or.inl rfl),
      rvalue_case__chain_fst [p0, p1, p2] b w w (Or.inl rfl)]
    rfl
  · rw [rvalue_cases4_fst b p0 p1 p2 p3 w w (Or.inl rfl),
      rvalue_case__chain_fst [p0, p1, p2, p3] b w w (Or.inl rfl)]
    rfl
  · rw [rvalue_cases5_fst b p0 p1 p2 p3 p4 w w (Or.inl rfl),
      rvalue_case__chain_fst [p0, p1, p2, p3, p4] b w w (Or.inl rfl)]
    rfl
  · rw [rvalue_cases6_fst b p0 p1 p2 p3 p4 p5 w w (Or.inl rfl),
      rvalue_case__chain_fst [p0, p1, p2, p3, p4, p5] b w w (Or.inl rfl)]
    rfl
  · rw [rvalue_cases7_fst b p0 p1 p2 p3 p4 p5 p6 w w (Or.inl rfl),
      rvalue_case__chain_fst [p0, p1, p2, p3, p4, p5, p6] b w w (Or.inl rfl)]
    rfl
  · rw [rvalue_cases8_fst b p0 p1 p2 p3 p4 p5 p6 p7 w w (Or.inl rfl),
      rvalue_case__chain_fst [p0, p1, p2, p3, p4, p5, p6, p7] b w w (Or.inl rfl)]
    rfl
  · rw [rvalue_cases9_fst b p0 p1 p2 p3 p4 p5 p6 p7 p8 w w (Or.inl rfl),
      rvalue_case__chain_fst [p0, p1, p2, p3, p4, p5, p6, p7, p8] b w w (Or.inl rfl)]
    rfl
  · rw [rvalue_cases10_fst b p0 p1 p2 p3 p4 p5 p6 p7 p8 p9 w w (Or.inl rfl),
      rvalue_case__chain_fst [p0, p1, p2, p3, p4, p5, p6, p7, p8, p9] b w w (Or.inl rfl)]
    rfl

/-- C7 (move integrity): with pairwise distinct patterns and three owning pointers, the
chain `case_(p1, move(v1)).cases(p2, p3, move(v2)).orDefault(move(v3))` returns `v1` when
the input is `p1`, `v2` when it is `p2` or `p3` and `v3` otherwise; the variable it
returns is left null and the other two still own their values. -/
theorem move_integrity {α : Type} (s p1 p2 p3 : string_view) (x1 x2 x3 : α)
    (h12 : p1 ≠ p2) (h13 : p1 ≠ p3) (_h23 : p2 ≠ p3) :
    (s = p1 → test_sswitch_nonmovable s p1 p2 p3 (some x1) (some x2) (some x3)
        = (some x1, none, some x2, some x3)) ∧
    (s = p2 ∨ s = p3 → test_sswitch_nonmovable s p1 p2 p3 (some x1) (some x2) (some x3)
        = (some x2, some x1, none, some x3)) ∧
    (s ≠ p1 → s ≠ p2 → s ≠ p3 →
      test_sswitch_nonmovable s p1 p2 p3 (some x1) (some x2) (some x3)
        = (some x3, some x1, some x2, none)) := by
  refine ⟨?_, ?_, ?_⟩
  · rintro rfl
    simp [test_sswitch_nonmovable, rvalue.case_, rvalue.cases2, rvalue.elif,
      rvalue.orDefault, string_switch.ctor]
  · rintro (rfl | rfl)
    · simp [test_sswitch_nonmovable, rvalue.case_, rvalue.cases2, rvalue.elif,
        rvalue.orDefault, string_switch.ctor, Ne.symm h12]
    · by_cases h : s = p2
      · subst h
        simp [test_sswitch_nonmovable, rvalue.case_, rvalue.cases2, rvalue.elif,
          rvalue.orDefault, string_switch.ctor, Ne.symm h13]
      · simp [test_sswitch_nonmovable, rvalue.case_, rvalue.cases2, rvalue.elif,
          rvalue.orDefault, string_switch.ctor, Ne.symm h13, h]
  · intro n1 n2 n3
    simp [test_sswitch_nonmovable, rvalue.case_, rvalue.cases2, rvalue.elif,
      rvalue.orDefault, string_switch.ctor, n1, n2, n3]

theorem move_integrity_witness :
    "1".toList ≠ "2".toList ∧ "1".toList ≠ "3".toList ∧ "2".toList ≠ "3".toList ∧
    ("2".toList = "2".toList ∨ "2".toList = "3".toList) ∧
    test_sswitch_nonmovable "2".toList "1".toList "2".toList "3".toList
      (some (1 : Int)) (some 2) (some 3) = (some 2, some 1, none, some 3) :=
  ⟨by decide, by decide, by decide, Or.inl rfl,
    (move_integrity "2".toList "1".toList "2".toList "3".toList (1 : Int) 2 3
      (by decide) (by decide) (by decide)).2.1 (Or.inl rfl)⟩

/-- C8, at a failing input: `cases` with three patterns (parameter declared `T`) on input
"x" with patterns "a", "b", "c" selects nothing and leaves the slot empty, yet the pointer
of the caller is null after the call; so it is through the four-pattern overload, which
forwards to it. The two-pattern overload leaves the pointer with the caller. -/
theorem cases3_consumes_unselected_value :
    rvalue.cases3 (string_switch.ctor "x".toList) "a".toList "b".toList "c".toList
        (some (7 : Int)) = (⟨"x".toList, none⟩, none) ∧
    rvalue.cases4 (string_switch.ctor "x".toList) "a".toList "b".toList "c".toList
        "d".toList (some (7 : Int)) = (⟨"x".toList, none⟩, none) ∧
    rvalue.cases2 (string_switch.ctor "x".toList) "a".toList "b".toList
        (some (7 : Int)) = (⟨"x".toList, none⟩, some 7) := by
  decide

/-- C9 (data-driven folding): folding pairs into the builder with `operator|` and calling
`orDefault(d)` returns the value of the first pair whose key equals the input, and `d` when
no key does; the fold yields the same builder as the `case_(key, value)` calls made in the
same order. -/
theorem fold_pipe_spec (conv : T → R) (s : string_view)
    (ps : List (string_switch.case_t T)) (d : T) :
    (∀ pre p post, ps = pre ++ p :: post → (∀ q ∈ pre, q.key ≠ s) → p.key = s →
        (fold_pipe (string_switch.ctor s) ps).orDefault conv d = conv p.value) ∧
    ((∀ p ∈ ps, p.key ≠ s) →
        (fold_pipe (string_switch.ctor s) ps).orDefault conv d = conv d) ∧
    (∀ st : string_switch T,
        fold_pipe st ps = ps.foldl (fun b p => b.case_ p.key p.value) st) := by
  have hchain : ∀ st : string_switch T,
      fold_pipe st ps = chain st (ps.map (fun p => registration.pipe p)) := by
    intro st
    simp [fold_pipe, chain, List.foldl_map, registration.call]
  refine ⟨?_, ?_, fun st => rfl⟩
  · rintro pre p post rfl hpre hp
    rw [hchain, List.map_append, List.map_cons,
      chain_first_satisfied (string_switch.ctor s) rfl _ (registration.pipe p) _ ?_ hp.symm]
    · rfl
    · intro q hq
      obtain ⟨c, hc, rfl⟩ := List.mem_map.1 hq
      exact fun h => hpre c hc h.symm
  · intro h
    rw [hchain, chain_none_satisfied]
    · rfl
    · intro q hq
      obtain ⟨c, hc, rfl⟩ := List.mem_map.1 hq
      exact fun hs => h c hc hs.symm

theorem fold_pipe_spec_witness :
    test_unpack ["a".toList, "b".toList, "cec".toList, "abba".toList] [1, 2, 3, 4]
      "cec".toList = 3 ∧
    test_unpack ["a".toList, "b".toList, "cec".toList, "abba".toList] [1, 2, 3, 4]
      "adfssf".toList = -1 :=
  ⟨(fold_pipe_spec id "cec".toList
      [⟨"a".toList, 1⟩, ⟨"b".toList, 2⟩, ⟨"cec".toList, 3⟩, ⟨"abba".toList, 4⟩] (-1 : Int)).1
      [⟨"a".toList, 1⟩, ⟨"b".toList, 2⟩] ⟨"cec".toList, 3⟩ [⟨"abba".toList, 4⟩] rfl
      (by decide) rfl,
   (fold_pipe_spec id "adfssf".toList
      [⟨"a".toList, 1⟩, ⟨"b".toList, 2⟩, ⟨"cec".toList, 3⟩, ⟨"abba".toList, 4⟩]
      (-1 : Int)).2.1 (by decide)⟩

/-- C10: `startsWith(p, v)` fills an empty slot with `v` exactly when `p` is a prefix of the
input, `endsWith(p, v)` exactly when `p` is a suffix of it; in every other case (slot
populated, `p` not a prefix or suffix, `p` longer than the input) the builder is returned as
it was; the input is never changed. -/
theorem startsWith_endsWith_spec (st : string_switch T) (p : string_view) (v : T) :
    ((st.startsWith p v).m_str = st.m_str ∧ (st.endsWith p v).m_str = st.m_str) ∧
    (st.m_result = none → ((st.startsWith p v).m_result = some v ↔ p <+: st.m_str)) ∧
    (st.m_result = none → ((st.endsWith p v).m_result = some v ↔ p <:+ st.m_str)) ∧
    (¬ (st.m_result = none ∧ p <+: st.m_str) → st.startsWith p v = st) ∧
    (¬ (st.m_result = none ∧ p <:+ st.m_str) → st.endsWith p v = st) ∧
    (st.m_str.length < p.length → st.startsWith p v = st ∧ st.endsWith p v = st) := by
  have hpre : ¬ (st.m_result = none ∧ p <+: st.m_str) → st.startsWith p v = st := by
    intro h
    rw [string_switch.startsWith_eq, if_neg (fun hc => h ⟨by simpa using hc.1, hc.2⟩)]
  have hsuf : ¬ (st.m_result = none ∧ p <:+ st.m_str) → st.endsWith p v = st := by
    intro h
    rw [string_switch.endsWith_eq, if_neg (fun hc => h ⟨by simpa using hc.1, hc.2⟩)]
  refine ⟨⟨?_, ?_⟩, ?_, ?_, hpre, hsuf, ?_⟩
  · rw [string_switch.startsWith_eq]; split <;> rfl
  · rw [string_switch.endsWith_eq]; split <;> rfl
  · intro hn
    constructor
    · intro h
      by_contra hp
      rw [hpre (fun hc => hp hc.2), hn] at h
      exact Option.noConfusion h
    · intro hp
      rw [string_switch.startsWith_eq, if_pos ⟨by simp [hn], hp⟩]
  · intro hn
    constructor
    · intro h
      by_contra hp
      rw [hsuf (fun hc => hp hc.2), hn] at h
      exact Option.noConfusion h
    · intro hp
      rw [string_switch.endsWith_eq, if_pos ⟨by simp [hn], hp⟩]
  · intro hlen
    exact ⟨hpre (fun hc => absurd hc.2.length_le (by omega)),
      hsuf (fun hc => absurd hc.2.length_le (by omega))⟩

theorem startsWith_endsWith_spec_witness :
    ((string_switch.ctor "abc".toList : string_switch Int).m_result = none ∧
      (((string_switch.ctor "abc".toList : string_switch Int).startsWith "ab".toList
        1).m_result = some 1 ↔ "ab".toList <+: "abc".toList)) ∧
    ((string_switch.ctor "abc".toList : string_switch Int).m_result = none ∧
      (((string_switch.ctor "abc".toList : string_switch Int).endsWith "ab".toList
        1).m_result = some 1 ↔ "ab".toList <:+ "abc".toList)) ∧
    ("abc".toList.length < "abcd".toList.length ∧
      (string_switch.ctor "abc".toList : string_switch Int).startsWith "abcd".toList 1
        = string_switch.ctor "abc".toList) :=
  ⟨⟨rfl, (startsWith_endsWith_spec (string_switch.ctor "abc".toList) "ab".toList
      (1 : Int)).2.1 rfl⟩,
   ⟨rfl, (startsWith_endsWith_spec (string_switch.ctor "abc".toList) "ab".toList
      (1 : Int)).2.2.1 rfl⟩,
   ⟨by decide, ((startsWith_endsWith_spec (string_switch.ctor "abc".toList) "abcd".toList
      (1 : Int)).2.2.2.2.2 (by decide)).1⟩⟩

end contract

/-! ## The slot invariant, the two collapses, the benchmark and the order of disjoint cases -/

section further

variable {T R : Type}

/-- C11 (slot invariant): the slot is empty at construction, and once it holds a value `v`
every further registration, with any patterns and any value, returns a builder with the
slot `some v` and the same input; so does every chain of further registrations. -/
theorem slot_invariant (s : string_view) (st : string_switch T) (v : T) :
    (string_switch.ctor s : string_switch T).m_result = none ∧
    (st.m_result = some v →
      (∀ r : registration T,
        (registration.call st r).m_result = some v ∧
        (registration.call st r).m_str = st.m_str) ∧
      (∀ regs : List (registration T),
        (chain st regs).m_result = some v ∧ (chain st regs).m_str = st.m_str)) := by
  refine ⟨rfl, fun h => ⟨fun r => ?_, fun regs => ?_⟩⟩
  · have hr : registration.call st r = st := by
      rw [registration.call_eq, if_neg (by simp [h])]
    rw [hr]
    exact ⟨h, rfl⟩
  · rw [chain_populated st v h regs]
    exact ⟨h, rfl⟩

open registration in
theorem slot_invariant_witness :
    (⟨"abc".toList, some 2⟩ : string_switch Int).m_result = some 2 ∧
    (chain (⟨"abc".toList, some 2⟩ : string_switch Int)
      [case_ "abc".toList 5, cases3 "x".toList "abc".toList "y".toList 6,
        startsWith "".toList 7, endsWith "c".toList 8, pipe ⟨"abc".toList, 9⟩]).m_result
      = some 2 ∧
    (chain (⟨"abc".toList, some 2⟩ : string_switch Int)
      [case_ "abc".toList 5, cases3 "x".toList "abc".toList "y".toList 6,
        startsWith "".toList 7, endsWith "c".toList 8, pipe ⟨"abc".toList, 9⟩]).m_str
      = "abc".toList :=
  ⟨rfl, ((slot_invariant "abc".toList ⟨"abc".toList, some 2⟩ (2 : Int)).2 rfl).2 _⟩

open registration in
/-- C12 (empty pattern, empty input): on the empty input, `case_("", v)` after registrations
none of which is satisfied fills the slot with `v`, and both collapses return `R` constructed
from `v`; on a non-empty input `case_("", v)` returns the builder as it was. -/
theorem empty_pattern_and_input (conv : T → R) (v d : T)
    (pre post : List (registration T)) :
    ((∀ q ∈ pre, ¬ q.Satisfied []) →
      (chain (string_switch.ctor []) (pre ++ case_ [] v :: post)).m_result = some v ∧
      (chain (string_switch.ctor []) (pre ++ case_ [] v :: post)).operator_R conv
        = .ok (conv v) ∧
      (chain (string_switch.ctor []) (pre ++ case_ [] v :: post)).orDefault conv d
        = conv v) ∧
    (∀ st : string_switch T, st.m_str ≠ [] → st.case_ [] v = st) := by
  constructor
  · intro hpre
    rw [chain_first_satisfied (string_switch.ctor []) rfl pre (case_ [] v) post hpre rfl]
    exact ⟨rfl, rfl, rfl⟩
  · intro st hne
    exact string_switch.elif_miss st [] v hne

open registration in
theorem empty_pattern_and_input_witness :
    ((∀ q ∈ ([] : List (registration Int)), ¬ q.Satisfied []) ∧
      (chain (string_switch.ctor "".toList) [case_ "".toList (4 : Int)]).operator_R id
        = .ok 4) ∧
    ((chain (string_switch.ctor "abc".toList)
        [case_ "a".toList (1 : Int), case_ "abc".toList 2, case_ "fdsfsdf".toList 3]).m_str
        ≠ [] ∧
      (chain (string_switch.ctor "abc".toList)
        [case_ "a".toList (1 : Int), case_ "abc".toList 2, case_ "fdsfsdf".toList 3,
          case_ "".toList 4])
        = chain (string_switch.ctor "abc".toList)
          [case_ "a".toList (1 : Int), case_ "abc".toList 2, case_ "fdsfsdf".toList 3] ∧
      (chain (string_switch.ctor "abc".toList)
        [case_ "a".toList (1 : Int), case_ "abc".toList 2, case_ "fdsfsdf".toList 3,
          case_ "".toList 4]).operator_R id = .ok 2) :=
  ⟨⟨by decide,
    ((empty_pattern_and_input id (4 : Int) 0 [] []).1 (by decide)).2.1⟩,
   ⟨by decide,
    (empty_pattern_and_input id (4 : Int) 0 [] []).2
      (chain (string_switch.ctor "abc".toList)
        [case_ "a".toList (1 : Int), case_ "abc".toList 2, case_ "fdsfsdf".toList 3])
      (by decide),
    rfl⟩⟩

/-- C13 (type separation, agreement of the collapses): on a builder whose slot holds `t`,
`orDefault(d)` and the implicit conversion return the same `R`, the one constructed from
`t`, whatever `d` is; on an empty slot `orDefault(d)` returns `R` constructed from `d`. -/
theorem collapses_agree (conv : T → R) (st : string_switch T) (t d : T) :
    (st.m_result = some t →
      st.orDefault conv d = conv t ∧ st.operator_R conv = .ok (conv t)) ∧
    (st.m_result = none → st.orDefault conv d = conv d) := by
  constructor
  · intro h
    simp [string_switch.orDefault, string_switch.operator_R, h]
  · intro h
    simp [string_switch.orDefault, h]

open registration in
theorem collapses_agree_witness :
    (chain (string_switch.ctor "abc".toList)
      [case_ "a".toList "v1".toList, case_ "abc".toList "hehh".toList,
        case_ "fdsfsdf".toList "v3".toList, case_ "".toList "v4".toList]).m_result
      = some "hehh".toList ∧
    (chain (string_switch.ctor "abc".toList)
      [case_ "a".toList "v1".toList, case_ "abc".toList "hehh".toList,
        case_ "fdsfsdf".toList "v3".toList, case_ "".toList "v4".toList]).orDefault
      String.mk "".toList = "hehh" ∧
    (chain (string_switch.ctor "abc".toList)
      [case_ "a".toList "v1".toList, case_ "abc".toList "hehh".toList,
        case_ "fdsfsdf".toList "v3".toList, case_ "".toList "v4".toList]).operator_R
      String.mk = .ok "hehh" :=
  ⟨by decide,
    (collapses_agree String.mk
      (chain (string_switch.ctor "abc".toList)
        [case_ "a".toList "v1".toList, case_ "abc".toList "hehh".toList,
          case_ "fdsfsdf".toList "v3".toList, case_ "".toList "v4".toList])
      "hehh".toList "".toList).1 (by decide)⟩

/-- C14: for every input, `string_switch_impl` of the benchmark returns the same `Color` as
the hand-written `if_else_impl`. -/
theorem string_switch_impl_eq_if_else_impl (str : string_view) :
    string_switch_impl str = if_else_impl str := by
  unfold string_switch_impl if_else_impl string_switch.case_
  by_cases h1 : str = "red".toList
  · subst h1; decide
  by_cases h2 : str = "green".toList
  · subst h2; decide
  by_cases h3 : str = "blue".toList
  · subst h3; decide
  by_cases h4 : str = "yellow".toList
  · subst h4; decide
  by_cases h5 : str = "black".toList
  · subst h5; decide
  by_cases h6 : str = "white".toList
  · subst h6; decide
  rw [string_switch.elif_miss (string_switch.ctor str) _ _ h1,
    string_switch.elif_miss (string_switch.ctor str) _ _ h2,
    string_switch.elif_miss (string_switch.ctor str) _ _ h3,
    string_switch.elif_miss (string_switch.ctor str) _ _ h4,
    string_switch.elif_miss (string_switch.ctor str) _ _ h5,
    string_switch.elif_miss (string_switch.ctor str) _ _ h6]
  simp only [beq_iff_eq, h1, h2, h3, h4, h5, h6, if_false]
  rfl

/-- A list with an element satisfying `P` splits at the first such element. -/
theorem exists_first_satisfying {β : Type} (P : β → Prop) (l : List β)
    (h : ∃ x ∈ l, P x) :
    ∃ pre x post, l = pre ++ x :: post ∧ (∀ q ∈ pre, ¬ P q) ∧ P x := by
  induction l with
  | nil => obtain ⟨x, hx, _⟩ := h; cases hx
  | cons a l ih =>
    by_cases ha : P a
    · exact ⟨[], a, l, rfl, fun q hq => absurd hq (List.not_mem_nil q), ha⟩
    · obtain ⟨x, hx, hPx⟩ := h
      have hxl : x ∈ l := by
        rcases List.mem_cons.1 hx with rfl | hxl
        · exact absurd hPx ha
        · exact hxl
      obtain ⟨pre, y, post, rfl, hpre, hy⟩ := ih ⟨x, hxl, hPx⟩
      refine ⟨a :: pre, y, post, rfl, ?_, hy⟩
      intro q hq
      rcases List.mem_cons.1 hq with rfl | hq
      · exact ha
      · exact hpre q hq

/-- The builder after the `case_` calls of a list of pairs, split at the first pair whose
pattern is the input. -/
theorem chain_case__first (s : string_view) (pre : List (string_view × T))
    (x : string_view × T) (post : List (string_view × T))
    (hpre : ∀ q ∈ pre, q.1 ≠ s) (hx : x.1 = s) :
    chain (string_switch.ctor s)
      ((pre ++ x :: post).map (fun p => registration.case_ p.1 p.2)) = ⟨s, some x.2⟩ := by
  rw [List.map_append, List.map_cons]
  refine chain_first_satisfied (string_switch.ctor s) rfl _ (registration.case_ x.1 x.2) _
    ?_ hx.symm
  intro q hq
  obtain ⟨c, hc, rfl⟩ := List.mem_map.1 hq
  exact fun h => hpre c hc h.symm

/-- The builder after the `case_` calls of a list of pairs none of whose patterns is the
input. -/
theorem chain_case__none (s : string_view) (ps : List (string_view × T))
    (h : ∀ q ∈ ps, q.1 ≠ s) :
    chain (string_switch.ctor s) (ps.map (fun p => registration.case_ p.1 p.2))
      = string_switch.ctor s := by
  refine chain_none_satisfied (string_switch.ctor s) _ ?_
  intro q hq
  obtain ⟨c, hc, rfl⟩ := List.mem_map.1 hq
  exact fun hs => h c hc hs.symm

/-- C15 (order independence for distinct exact patterns): when the patterns of a list of
(pattern, value) pairs are pairwise distinct, registering the pairs with `case_` in the
order of the list or in the order of any permutation of it, and then calling
`orDefault(d)`, returns the same result. -/
theorem case__order_independent (conv : T → R) (s : string_view) (d : T)
    (ps qs : List (string_view × T)) (hperm : List.Perm ps qs)
    (hnd : (ps.map Prod.fst).Nodup) :
    (chain (string_switch.ctor s)
        (ps.map (fun p => registration.case_ p.1 p.2))).orDefault conv d
      = (chain (string_switch.ctor s)
        (qs.map (fun p => registration.case_ p.1 p.2))).orDefault conv d := by
  by_cases h : ∃ x ∈ ps, x.1 = s
  · have hq : ∃ x ∈ qs, x.1 = s := by
      obtain ⟨x, hx, hs⟩ := h
      exact ⟨x, hperm.mem_iff.1 hx, hs⟩
    obtain ⟨pre, x, post, hps, hpre, hx⟩ := exists_first_satisfying (fun p => p.1 = s) ps h
    obtain ⟨pre2, y, post2, hqs, hpre2, hy⟩ :=
      exists_first_satisfying (fun p => p.1 = s) qs hq
    have hxmem : x ∈ ps := by rw [hps]; simp
    have hymem : y ∈ ps := by
      apply hperm.mem_iff.2
      rw [hqs]; simp
    have hxy : x = y := List.inj_on_of_nodup_map hnd hxmem hymem (hx.trans hy.symm)
    rw [hps, hqs, chain_case__first s pre x post hpre hx,
      chain_case__first s pre2 y post2 hpre2 hy, hxy]
  · have hp : ∀ q ∈ ps, q.1 ≠ s := fun q hq hs => h ⟨q, hq, hs⟩
    have hq : ∀ q ∈ qs, q.1 ≠ s := fun q hq hs => h ⟨q, hperm.mem_iff.2 hq, hs⟩
    rw [chain_case__none s ps hp, chain_case__none s qs hq]

theorem case__order_independent_witness :
    List.Perm [("a".toList, (1 : Int)), ("b".toList, 2), ("cec".toList, 3)]
      [("cec".toList, 3), ("a".toList, 1), ("b".toList, 2)] ∧
    ([("a".toList, (1 : Int)), ("b".toList, 2), ("cec".toList, 3)].map Prod.fst).Nodup ∧
    (chain (string_switch.ctor "cec".toList)
        ([("a".toList, (1 : Int)), ("b".toList, 2), ("cec".toList, 3)].map
          (fun p => registration.case_ p.1 p.2))).orDefault id (-1)
      = (chain (string_switch.ctor "cec".toList)
        ([("cec".toList, (3 : Int)), ("a".toList, 1), ("b".toList, 2)].map
          (fun p => registration.case_ p.1 p.2))).orDefault id (-1) :=
  ⟨by decide, by decide,
    case__order_independent id "cec".toList (-1 : Int) _ _ (by decide) (by decide)⟩

/-- C16 (an empty affix catches everything): for every input, the empty string included,
`startsWith("", v)` and `endsWith("", v)` on a builder with an empty slot fill the slot with
`v`; every chain of later registrations leaves that builder as it is, and a following
`orDefault(d)` returns `R` constructed from `v`. -/
theorem empty_affix_catch_all (conv : T → R) (s : string_view) (v d : T)
    (regs : List (registration T)) :
    ((⟨s, none⟩ : string_switch T).startsWith [] v = ⟨s, some v⟩ ∧
      (⟨s, none⟩ : string_switch T).endsWith [] v = ⟨s, some v⟩) ∧
    (chain ((⟨s, none⟩ : string_switch T).startsWith [] v) regs = ⟨s, some v⟩ ∧
      chain ((⟨s, none⟩ : string_switch T).endsWith [] v) regs = ⟨s, some v⟩) ∧
    ((chain ((⟨s, none⟩ : string_switch T).startsWith [] v) regs).orDefault conv d = conv v ∧
      (chain ((⟨s, none⟩ : string_switch T).endsWith [] v) regs).orDefault conv d
        = conv v) := by
  have h1 : (⟨s, none⟩ : string_switch T).startsWith [] v = ⟨s, some v⟩ := by
    simp [string_switch.startsWith, starts_with]
  have h2 : (⟨s, none⟩ : string_switch T).endsWith [] v = ⟨s, some v⟩ := by
    simp [string_switch.endsWith, ends_with]
  have h3 : chain (⟨s, some v⟩ : string_switch T) regs = ⟨s, some v⟩ :=
    chain_populated _ v rfl regs
  rw [h1, h2, h3]
  exact ⟨⟨rfl, rfl⟩, ⟨rfl, rfl⟩, rfl, rfl⟩

end further

end ss
